import Mathlib

/-!
# Verification of the Disney-reviews aggregation engine

Shallow embedding of `src/process.py`, `src/exporter.py` and the relevant
display decision of `src/main.py` of the `project_template` repository.

Python `dict`s (which preserve insertion order) are modelled as association
lists `List (String × α)` with an insert-or-update operation `upd` that keeps
an existing key in place and appends a fresh key at the end, exactly as
CPython dictionaries do.  Python strings are modelled through their character
lists; `str.lower`, `str.startswith` and `str.split('-')` are embedded as
`lowerStr`, `pyStartsWith` and `pySplitDash`.  Ratings are integers (the
loader parses them with `int(...)` and performs no range check), so they are
modelled as `ℤ`; float averages are modelled as `ℚ`.  A Python function that
can raise is modelled as returning `Option`.
-/

namespace Disney

/-- One review record, from the `Review` dataclass in `src/process.py`. -/
structure Review where
  id : ℤ
  rating : ℤ
  year_month : String
  location : String
  park : String
deriving DecidableEq

/-- Embedding of Python `str.lower()` (character-wise lowering). -/
def lowerStr (s : String) : String := ⟨s.data.map Char.toLower⟩

/-- Embedding of Python `str.startswith(pre)`. -/
def pyStartsWith (s pre : String) : Bool := pre.data.isPrefixOf s.data

/-- Embedding of Python `str.split('-')` on the character list:
`"a-b".split('-') == ["a","b"]`, `"".split('-') == [""]`,
`"a--b".split('-') == ["a","","b"]`. -/
def pySplitDash : List Char → List String
  | [] => [""]
  | c :: rest =>
    let r := pySplitDash rest
    if c = '-' then "" :: r
    else
      match r with
      | [] => [⟨[c]⟩]
      | g :: gs => (⟨c :: g.data⟩ : String) :: gs

/-- Key lookup in an insertion-ordered association list (Python `d[k]` /
`k in d`). -/
def lookupK {α : Type} : List (String × α) → String → Option α
  | [], _ => none
  | (k, v) :: rest, key => if k = key then some v else lookupK rest key

/-- Insert-or-update for an insertion-ordered association list: an existing
key keeps its position (CPython dict update), a fresh key is appended at the
end (CPython dict insertion).  `d` is the default value a fresh key starts
from (`defaultdict` semantics), `f` the update applied to the stored value. -/
def upd {α : Type} : List (String × α) → String → (α → α) → α → List (String × α)
  | [], key, f, d => [(key, f d)]
  | (k, v) :: rest, key, f, d =>
    if k = key then (k, f v) :: rest else (k, v) :: upd rest key f d

/-- `get_reviews_by_park` (src/process.py:56): keep the reviews whose park
equals `park` case-insensitively. -/
def get_reviews_by_park (reviews : List Review) (park : String) : List Review :=
  reviews.filter (fun r => decide (lowerStr r.park = lowerStr park))

/-- The `ratings` list built inside `avg_rating_by_park_year`
(src/process.py:96-100): ratings of reviews matching the park
case-insensitively whose `year_month` starts with the year string. -/
def yearMatchRatings (reviews : List Review) (park year : String) : List ℤ :=
  (reviews.filter (fun r =>
    decide (lowerStr r.park = lowerStr park) && pyStartsWith r.year_month year)).map Review.rating

/-- `avg_rating_by_park_year` (src/process.py:85): average rating for a park
and year, `none` when no review matches. -/
def avg_rating_by_park_year (reviews : List Review) (park year : String) : Option ℚ :=
  let ratings := yearMatchRatings reviews park year
  if ratings.isEmpty then none
  else some ((ratings.sum : ℚ) / (ratings.length : ℚ))

/-- `reviews_count_per_park` (src/process.py:104): `Counter(r.park for r)`,
i.e. a count per raw park string, keys in first-encounter order. -/
def reviews_count_per_park (reviews : List Review) : List (String × ℕ) :=
  reviews.foldl (fun m r => upd m r.park (· + 1) 0) []

/-- The `stats` accumulator of `avg_rating_per_park` (src/process.py:125-127):
`defaultdict(list)` collecting each park's ratings in order. -/
def perParkRatings (reviews : List Review) : List (String × List ℤ) :=
  reviews.foldl (fun m r => upd m r.park (· ++ [r.rating]) []) []

/-- `avg_rating_per_park` (src/process.py:116): unrounded average rating per
raw park string. -/
def avg_rating_per_park (reviews : List Review) : List (String × ℚ) :=
  (perParkRatings reviews).map (fun pv => (pv.1, ((pv.2.sum : ℚ) / (pv.2.length : ℚ))))

/-- The `stats` accumulator of `top_locations_for_park`
(src/process.py:141-144): per-location rating lists over the park-filtered
input, keys in first-encounter order. -/
def parkLocStats (reviews : List Review) (park : String) : List (String × List ℤ) :=
  reviews.foldl
    (fun m r =>
      if lowerStr r.park = lowerStr park then upd m r.location (· ++ [r.rating]) [] else m)
    []

/-- The `avgs` dict of `top_locations_for_park` (src/process.py:145). -/
def locAvgs (reviews : List Review) (park : String) : List (String × ℚ) :=
  (parkLocStats reviews park).map (fun lv => (lv.1, ((lv.2.sum : ℚ) / (lv.2.length : ℚ))))

/-- The descending comparison used by
`sorted(avgs.items(), key=lambda x: x[1], reverse=True)`: `a` may come before
`b` iff `b`'s average is at most `a`'s. -/
def descRel (a b : String × ℚ) : Prop := b.2 ≤ a.2

instance : DecidableRel descRel := fun a b => inferInstanceAs (Decidable (b.2 ≤ a.2))

instance : IsTotal (String × ℚ) descRel := ⟨fun a b => le_total b.2 a.2⟩

instance : IsTrans (String × ℚ) descRel := ⟨fun _ _ _ hab hbc => le_trans hbc hab⟩

/-- Python list slicing `l[:n]`: for `n ≥ 0` the first `n` elements, for
`n < 0` all but the last `|n|` elements. -/
def pySlice {α : Type} (n : ℤ) (l : List α) : List α :=
  if 0 ≤ n then l.take n.toNat else l.take (l.length - (-n).toNat)

/-- `top_locations_for_park` (src/process.py:130): per-location averages for a
park, sorted descending by average (Python's `sorted` is stable), truncated
to the first `top` entries; `top` defaults to 10. -/
def top_locations_for_park (reviews : List Review) (park : String) (top : ℤ := 10) :
    List (String × ℚ) :=
  pySlice top (List.insertionSort descRel (locAvgs reviews park))

/-- The `month_map` dict of `avg_monthly_rating` (src/process.py:158-163). -/
def monthPairs : List (String × String) :=
  [("01", "Jan"), ("02", "Feb"), ("03", "Mar"),
   ("04", "Apr"), ("05", "May"), ("06", "Jun"),
   ("07", "Jul"), ("08", "Aug"), ("09", "Sep"),
   ("10", "Oct"), ("11", "Nov"), ("12", "Dec")]

/-- `month_map.values()`: the twelve month names in calendar order. -/
def monthNames : List String := monthPairs.map Prod.snd

/-- The accumulation loop of `avg_monthly_rating` (src/process.py:165-171).
`_, month = r.year_month.split("-")` raises `ValueError` unless the split has
exactly two parts; this is modelled by returning `none`.  A two-part split
whose month code is not in `month_map` is silently skipped. -/
def monthlyStatsAux (park : String) :
    List Review → List (String × List ℤ) → Option (List (String × List ℤ))
  | [], m => some m
  | r :: rest, m =>
    if lowerStr r.park = lowerStr park then
      match pySplitDash r.year_month.data with
      | [_, month] =>
        match lookupK monthPairs month with
        | some name => monthlyStatsAux park rest (upd m name (· ++ [r.rating]) [])
        | none => monthlyStatsAux park rest m
      | _ => none
    else monthlyStatsAux park rest m

/-- `avg_monthly_rating` (src/process.py:148): ordered monthly averages
Jan..Dec for a park, `0` for a month without data; `none` models the
`ValueError` raised on a park-matching review whose `year_month` does not
split into exactly two parts. -/
def avg_monthly_rating (reviews : List Review) (park : String) :
    Option (List (String × ℚ)) :=
  (monthlyStatsAux park reviews []).map (fun stats =>
    monthNames.map (fun name =>
      (name,
        match lookupK stats name with
        | some v => if v.isEmpty then 0 else ((v.sum : ℚ) / (v.length : ℚ))
        | none => 0)))

/-- The running per-park accumulator of `park_summary` (src/process.py:210):
`{"reviews": 0, "positive": 0, "avg": 0.0, "countries": set()}`; the `avg`
field holds the running rating sum until the final division. -/
structure RawSummary where
  reviews : ℕ
  positive : ℕ
  avgAcc : ℤ
  countries : Finset String
deriving DecidableEq

/-- The zero-initialised accumulator a fresh park starts from. -/
def rawInit : RawSummary := ⟨0, 0, 0, ∅⟩

/-- One iteration of the `park_summary` loop (src/process.py:211-216). -/
def summStep (s : RawSummary) (r : Review) : RawSummary :=
  { reviews := s.reviews + 1
    positive := s.positive + (if 4 ≤ r.rating then 1 else 0)
    avgAcc := s.avgAcc + r.rating
    countries := insert r.location s.countries }

/-- Round half to even at integer precision, as Python's builtin `round`. -/
def roundHalfEven (q : ℚ) : ℤ :=
  if q - ⌊q⌋ < 1 / 2 then ⌊q⌋
  else if 1 / 2 < q - ⌊q⌋ then ⌊q⌋ + 1
  else if Even ⌊q⌋ then ⌊q⌋ else ⌊q⌋ + 1

/-- Python `round(x, 2)`: round to two decimal places, half to even. -/
def round2 (q : ℚ) : ℚ := (roundHalfEven (q * 100) : ℚ) / 100

/-- A finalised per-park summary entry (src/process.py:218-220): review
count, positive count, average rounded to 2 decimals, distinct-location
count. -/
structure ParkStats where
  reviews : ℕ
  positive : ℕ
  avg : ℚ
  countries : ℕ
deriving DecidableEq

/-- `park_summary` (src/process.py:201): single pass accumulating per raw
park key, then a finalising pass dividing the rating sum by the count
(rounded to 2 decimals) and replacing the location set by its size. -/
def park_summary (reviews : List Review) : List (String × ParkStats) :=
  (reviews.foldl (fun m r => upd m r.park (fun s => summStep s r) rawInit) []).map
    (fun ps =>
      (ps.1,
       ⟨ps.2.reviews, ps.2.positive,
        round2 ((ps.2.avgAcc : ℚ) / (ps.2.reviews : ℚ)), ps.2.countries.card⟩))

/-!
## Generic lemmas about the ordered-dict model

The aggregation loops all have the shape
`rs.foldl (fun m r => upd m (key of r) (step r) default) m₀`, possibly
skipping some records.  `keyStep` captures that shape (`keyOf r = none`
meaning the record is skipped), and `lookupK_foldl` / `keys_foldl` describe
the resulting dictionary.
-/

variable {α : Type}

@[simp] theorem lookupK_nil (k : String) : lookupK ([] : List (String × α)) k = none := rfl

theorem lookupK_upd (m : List (String × α)) (k k' : String) (f : α → α) (d : α) :
    lookupK (upd m k f d) k' =
      if k = k' then some (f ((lookupK m k).getD d)) else lookupK m k' := by
  induction m with
  | nil =>
    simp only [upd, lookupK]
    split <;> simp
  | cons p rest ih =>
    obtain ⟨k₀, v⟩ := p
    by_cases h0 : k₀ = k
    · subst h0
      by_cases h1 : k₀ = k'
      · subst h1
        simp [upd, lookupK]
      · simp [upd, lookupK, h1, Ne.symm h1]
    · by_cases h1 : k₀ = k'
      · subst h1
        have h2 : k ≠ k₀ := fun h => h0 h.symm
        simp [upd, lookupK, h0, h2]
      · simp [upd, lookupK, h0, h1, ih]

theorem keys_upd (m : List (String × α)) (k : String) (f : α → α) (d : α) :
    (upd m k f d).map Prod.fst =
      if k ∈ m.map Prod.fst then m.map Prod.fst else m.map Prod.fst ++ [k] := by
  induction m with
  | nil => simp [upd]
  | cons p rest ih =>
    obtain ⟨k₀, v⟩ := p
    by_cases h0 : k₀ = k
    · subst h0
      simp [upd]
    · simp only [upd, if_neg h0, List.map_cons, List.mem_cons, ih]
      by_cases h1 : k ∈ rest.map Prod.fst
      · simp [h1, Ne.symm h0]
      · simp [h1, Ne.symm h0]

theorem lookupK_eq_none_iff (m : List (String × α)) (k : String) :
    lookupK m k = none ↔ k ∉ m.map Prod.fst := by
  induction m with
  | nil => simp [lookupK]
  | cons p rest ih =>
    obtain ⟨k₀, v⟩ := p
    by_cases h0 : k₀ = k
    · subst h0
      simp [lookupK]
    · simp [lookupK, h0, ih, Ne.symm h0]

/-- One loop iteration: update the entry for `keyOf r` (starting from `d` if
absent), or leave the dict alone when `keyOf r = none`. -/
def keyStep (keyOf : Review → Option String) (f : Review → α → α) (d : α)
    (m : List (String × α)) (r : Review) : List (String × α) :=
  match keyOf r with
  | some k => upd m k (f r) d
  | none => m

/-- The records of `rs` that contribute to key `k`. -/
def hits (keyOf : Review → Option String) (k : String) (rs : List Review) : List Review :=
  rs.filter (fun r => decide (keyOf r = some k))

theorem lookupK_foldl (keyOf : Review → Option String) (f : Review → α → α) (d : α)
    (rs : List Review) (m₀ : List (String × α)) (k : String) :
    lookupK (rs.foldl (keyStep keyOf f d) m₀) k =
      if (hits keyOf k rs).isEmpty then lookupK m₀ k
      else some ((hits keyOf k rs).foldl (fun v r => f r v) ((lookupK m₀ k).getD d)) := by
  induction rs generalizing m₀ with
  | nil => simp [hits]
  | cons r rest ih =>
    rcases hk : keyOf r with _ | k''
    · have hstep : keyStep keyOf f d m₀ r = m₀ := by simp [keyStep, hk]
      have hh : hits keyOf k (r :: rest) = hits keyOf k rest := by
        simp [hits, hk]
      simp only [List.foldl_cons, hstep, hh, ih]
    · by_cases hkk : k'' = k
      · subst hkk
        have hstep : keyStep keyOf f d m₀ r = upd m₀ k'' (f r) d := by
          simp [keyStep, hk]
        have hh : hits keyOf k'' (r :: rest) = r :: hits keyOf k'' rest := by
          simp [hits, hk]
        have hlook : lookupK (upd m₀ k'' (f r) d) k'' =
            some (f r ((lookupK m₀ k'').getD d)) := by
          simp [lookupK_upd]
        simp only [List.foldl_cons, hstep, hh, ih, hlook]
        by_cases he : (hits keyOf k'' rest).isEmpty
        · rw [List.isEmpty_iff] at he
          simp [he]
        · simp [he]
      · have hstep : keyStep keyOf f d m₀ r = upd m₀ k'' (f r) d := by
          simp [keyStep, hk]
        have hh : hits keyOf k (r :: rest) = hits keyOf k rest := by
          simp [hits, hk, hkk]
        have hlook : lookupK (upd m₀ k'' (f r) d) k = lookupK m₀ k := by
          simp [lookupK_upd, hkk]
        simp only [List.foldl_cons, hstep, hh, ih, hlook]

/-- Key bookkeeping of one insertion: an existing key stays, a fresh key is
appended. -/
def addKey (ks : List String) (k : String) : List String :=
  if k ∈ ks then ks else ks ++ [k]

theorem keys_foldl (keyOf : Review → Option String) (f : Review → α → α) (d : α)
    (rs : List Review) (m₀ : List (String × α)) :
    (rs.foldl (keyStep keyOf f d) m₀).map Prod.fst =
      (rs.filterMap keyOf).foldl addKey (m₀.map Prod.fst) := by
  induction rs generalizing m₀ with
  | nil => rfl
  | cons r rest ih =>
    rcases hk : keyOf r with _ | k''
    · have hstep : keyStep keyOf f d m₀ r = m₀ := by simp [keyStep, hk]
      simp only [List.foldl_cons, hstep, List.filterMap_cons, hk, ih]
    · have hstep : keyStep keyOf f d m₀ r = upd m₀ k'' (f r) d := by
        simp [keyStep, hk]
      have hkeys : (upd m₀ k'' (f r) d).map Prod.fst = addKey (m₀.map Prod.fst) k'' := by
        rw [keys_upd, addKey]
      simp only [List.foldl_cons, hstep, List.filterMap_cons, hk, ih, hkeys]

theorem mem_foldl_addKey (ps : List String) (ks : List String) (k : String) :
    k ∈ ps.foldl addKey ks ↔ k ∈ ks ∨ k ∈ ps := by
  induction ps generalizing ks with
  | nil => simp
  | cons p rest ih =>
    have : k ∈ addKey ks p ↔ k ∈ ks ∨ k = p := by
      unfold addKey
      split <;> rename_i hmem
      · constructor
        · exact fun h => Or.inl h
        · rintro (h | rfl)
          · exact h
          · exact hmem
      · simp [or_comm]
    simp only [List.foldl_cons, ih, this, List.mem_cons]
    tauto

/-!
## Shape lemmas for the individual aggregation functions
-/

/-- The reviews whose raw `park` string is exactly `k`: the records grouped
under key `k` by the raw-keyed aggregations. -/
def parkRecords (rs : List Review) (k : String) : List Review :=
  rs.filter (fun r => decide (r.park = k))

theorem count_bridge (rs : List Review) :
    reviews_count_per_park rs =
      rs.foldl (keyStep (fun r => some r.park) (fun _ n => n + 1) 0) [] := rfl

theorem perParkRatings_bridge (rs : List Review) :
    perParkRatings rs =
      rs.foldl (keyStep (fun r => some r.park) (fun r v => v ++ [r.rating]) []) [] := rfl

theorem summary_bridge (rs : List Review) :
    rs.foldl (fun m r => upd m r.park (fun s => summStep s r) rawInit) [] =
      rs.foldl (keyStep (fun r => some r.park) (fun r s => summStep s r) rawInit) [] := rfl

theorem hits_park (rs : List Review) (k : String) :
    hits (fun r => some r.park) k rs = parkRecords rs k :=
  List.filter_congr (fun r _ => by simp)

theorem foldl_count (l : List Review) (n : ℕ) :
    l.foldl (fun v (_ : Review) => v + 1) n = n + l.length := by
  induction l generalizing n with
  | nil => simp
  | cons r rest ih => simp [ih]; omega

theorem foldl_append_ratings (l : List Review) (v0 : List ℤ) :
    l.foldl (fun v r => v ++ [r.rating]) v0 = v0 ++ l.map Review.rating := by
  induction l generalizing v0 with
  | nil => simp
  | cons r rest ih => simp [ih]

theorem summ_foldl (l : List Review) (s : RawSummary) :
    l.foldl (fun s r => summStep s r) s =
      ⟨s.reviews + l.length,
       s.positive + l.countP (fun r => decide (4 ≤ r.rating)),
       s.avgAcc + (l.map Review.rating).sum,
       l.foldl (fun cs r => insert r.location cs) s.countries⟩ := by
  induction l generalizing s with
  | nil => simp
  | cons r rest ih =>
    rw [List.foldl_cons, ih (summStep s r)]
    simp only [summStep, List.length_cons, List.countP_cons, List.map_cons, List.sum_cons,
      decide_eq_true_eq]
    congr 1 <;> first
      | rfl
      | omega

theorem card_foldl_insert_le (l : List Review) (cs : Finset String) :
    (l.foldl (fun cs r => insert r.location cs) cs).card ≤ cs.card + l.length := by
  induction l generalizing cs with
  | nil => simp
  | cons r rest ih =>
    calc (rest.foldl (fun cs r => insert r.location cs) (insert r.location cs)).card
        ≤ (insert r.location cs).card + rest.length := ih _
      _ ≤ cs.card + 1 + rest.length := by
          exact Nat.add_le_add_right (Finset.card_insert_le _ _) _
      _ = cs.card + (r :: rest).length := by simp; omega

theorem lookupK_map_val {α β : Type} (m : List (String × α)) (g : α → β) (k : String) :
    lookupK (m.map (fun pv => (pv.1, g pv.2))) k = (lookupK m k).map g := by
  induction m with
  | nil => rfl
  | cons p rest ih =>
    obtain ⟨k₀, v⟩ := p
    by_cases h : k₀ = k <;> simp [lookupK, h, ih]

theorem keys_map_val {α β : Type} (m : List (String × α)) (g : α → β) :
    (m.map (fun pv => (pv.1, g pv.2))).map Prod.fst = m.map Prod.fst := by
  simp [List.map_map]

theorem lookupK_count (rs : List Review) (k : String) :
    lookupK (reviews_count_per_park rs) k =
      if (parkRecords rs k).isEmpty then none else some (parkRecords rs k).length := by
  rw [count_bridge, lookupK_foldl, hits_park]
  split
  · rfl
  · simp [foldl_count]

theorem lookupK_perParkRatings (rs : List Review) (k : String) :
    lookupK (perParkRatings rs) k =
      if (parkRecords rs k).isEmpty then none
      else some ((parkRecords rs k).map Review.rating) := by
  rw [perParkRatings_bridge, lookupK_foldl, hits_park]
  split
  · rfl
  · simp [foldl_append_ratings]

theorem lookupK_avg_per_park (rs : List Review) (k : String) :
    lookupK (avg_rating_per_park rs) k =
      if (parkRecords rs k).isEmpty then none
      else some ((((parkRecords rs k).map Review.rating).sum : ℚ) /
                 ((parkRecords rs k).length : ℚ)) := by
  rw [avg_rating_per_park,
    lookupK_map_val (perParkRatings rs) (fun v => ((v.sum : ℚ) / (v.length : ℚ))) k,
    lookupK_perParkRatings]
  split
  · rfl
  · simp

theorem lookupK_park_summary (rs : List Review) (k : String) :
    lookupK (park_summary rs) k =
      if (parkRecords rs k).isEmpty then none
      else some
        ⟨(parkRecords rs k).length,
         (parkRecords rs k).countP (fun r : Review => decide (4 ≤ r.rating)),
         round2 ((((parkRecords rs k).map Review.rating).sum : ℚ) /
                 ((parkRecords rs k).length : ℚ)),
         ((parkRecords rs k).foldl (fun cs r => insert r.location cs)
           (∅ : Finset String)).card⟩ := by
  rw [park_summary,
    lookupK_map_val _ (fun s : RawSummary =>
      (⟨s.reviews, s.positive, round2 ((s.avgAcc : ℚ) / (s.reviews : ℚ)), s.countries.card⟩ :
        ParkStats)) k,
    summary_bridge, lookupK_foldl, hits_park]
  split
  · rfl
  · simp [summ_foldl, rawInit]

theorem keys_count_eq (rs : List Review) :
    (reviews_count_per_park rs).map Prod.fst = (rs.map Review.park).foldl addKey [] := by
  rw [count_bridge, keys_foldl]
  congr 1
  · induction rs with
    | nil => rfl
    | cons r rest ih => simp [List.filterMap_cons, ih]

theorem keys_summary_eq (rs : List Review) :
    (park_summary rs).map Prod.fst = (rs.map Review.park).foldl addKey [] := by
  rw [park_summary,
    keys_map_val _ (fun s : RawSummary =>
      (⟨s.reviews, s.positive, round2 ((s.avgAcc : ℚ) / (s.reviews : ℚ)), s.countries.card⟩ :
        ParkStats)),
    summary_bridge, keys_foldl]
  congr 1
  · induction rs with
    | nil => rfl
    | cons r rest ih => simp [List.filterMap_cons, ih]

theorem mem_keys_count (rs : List Review) (k : String) :
    k ∈ (reviews_count_per_park rs).map Prod.fst ↔ k ∈ rs.map Review.park := by
  rw [keys_count_eq, mem_foldl_addKey]
  simp

theorem mem_keys_summary (rs : List Review) (k : String) :
    k ∈ (park_summary rs).map Prod.fst ↔ k ∈ rs.map Review.park := by
  rw [keys_summary_eq, mem_foldl_addKey]
  simp

/-- Python truthiness of an `Optional[float]`: `None` and `0.0` are falsy. -/
def pyTruthy : Option ℚ → Bool
  | none => false
  | some x => !decide (x = 0)

/-- The branch decision of src/main.py:60,
`f"Average for {park} in {year}: {avg:.2f}" if avg else "No data."`:
`true` iff the "No data." message is displayed. -/
def year_query_no_data_shown (avg : Option ℚ) : Bool := !pyTruthy avg

/-!
## Concrete data used by witnesses and counterexamples
-/

/-- The worked scenario of spec §8 (also the unit-test fixture). -/
def sampleReviews : List Review :=
  [⟨1, 5, "2019-01", "Brazil", "Disneyland Paris"⟩,
   ⟨2, 4, "2019-01", "USA", "Disneyland Paris"⟩,
   ⟨3, 3, "2019-02", "France", "Disneyland Paris"⟩,
   ⟨4, 5, "2020-01", "Brazil", "Disney World Orlando"⟩,
   ⟨5, 4, "2020-01", "USA", "Disney World Orlando"⟩]

/-- A single review with the out-of-domain rating `0` (ratings are not
validated at load time), whose park/year average is the number `0.0`. -/
def zeroRatingReviews : List Review := [⟨1, 0, "2019-01", "Somewhere", "Park"⟩]

/-- Two records for the same park whose spellings differ only in case. -/
def twoCaseReviews : List Review :=
  [⟨1, 5, "2019-01", "Brazil", "Paris"⟩, ⟨2, 3, "2019-02", "USA", "paris"⟩]

/-!
## Claim theorems
-/

/-- C1: for every record sequence, park and year, `avg_rating_by_park_year`
returns the sentinel `none` exactly when no record matches the park
(case-insensitively) with `year_month` starting with the year string, and
returns the arithmetic mean of the matching records' ratings when at least
one record matches; it is a total function, so it never raises. -/
theorem avg_rating_by_park_year_none_iff_no_match (rs : List Review) (park year : String) :
    (avg_rating_by_park_year rs park year = none ↔
      rs.filter (fun r =>
        decide (lowerStr r.park = lowerStr park) && pyStartsWith r.year_month year) = []) ∧
    (rs.filter (fun r =>
        decide (lowerStr r.park = lowerStr park) && pyStartsWith r.year_month year) ≠ [] →
      avg_rating_by_park_year rs park year =
        some ((((rs.filter (fun r =>
            decide (lowerStr r.park = lowerStr park) &&
              pyStartsWith r.year_month year)).map Review.rating).sum : ℚ) /
          ((rs.filter (fun r =>
            decide (lowerStr r.park = lowerStr park) &&
              pyStartsWith r.year_month year)).length : ℚ))) := by
  have hm : yearMatchRatings rs park year =
      (rs.filter (fun r =>
        decide (lowerStr r.park = lowerStr park) && pyStartsWith r.year_month year)).map
        Review.rating := rfl
  have key : avg_rating_by_park_year rs park year =
      if (yearMatchRatings rs park year).isEmpty then none
      else some (((yearMatchRatings rs park year).sum : ℚ) /
                 ((yearMatchRatings rs park year).length : ℚ)) := rfl
  constructor
  · rw [key, hm]
    split <;> rename_i h
    · simp only [List.isEmpty_iff, List.map_eq_nil_iff] at h
      simp [h]
    · simp only [List.isEmpty_iff, List.map_eq_nil_iff] at h
      simp [h]
  · intro hne
    rw [key, hm]
    rw [if_neg (by simp [List.isEmpty_iff, hne])]
    simp

/-- Witness for C1 on the spec §8 scenario: Disneyland Paris in 2019 has
matching records, so the mean (not the sentinel) is returned. -/
theorem avg_rating_by_park_year_none_iff_no_match_witness :
    avg_rating_by_park_year sampleReviews "Disneyland Paris" "2019" =
      some ((((sampleReviews.filter (fun r =>
          decide (lowerStr r.park = lowerStr "Disneyland Paris") &&
            pyStartsWith r.year_month "2019")).map Review.rating).sum : ℚ) /
        ((sampleReviews.filter (fun r =>
          decide (lowerStr r.park = lowerStr "Disneyland Paris") &&
            pyStartsWith r.year_month "2019")).length : ℚ)) :=
  (avg_rating_by_park_year_none_iff_no_match sampleReviews "Disneyland Paris" "2019").2
    (by decide)

theorem sumVals_upd_succ (m : List (String × ℕ)) (k : String) :
    ((upd m k (· + 1) 0).map Prod.snd).sum = (m.map Prod.snd).sum + 1 := by
  induction m with
  | nil => simp [upd]
  | cons p rest ih =>
    obtain ⟨k₀, v⟩ := p
    by_cases h : k₀ = k
    · simp [upd, h]
      omega
    · simp [upd, h, ih]
      omega

theorem sumVals_count_foldl (rs : List Review) (m₀ : List (String × ℕ)) :
    ((rs.foldl (fun m r => upd m r.park (· + 1) 0) m₀).map Prod.snd).sum =
      (m₀.map Prod.snd).sum + rs.length := by
  induction rs generalizing m₀ with
  | nil => simp
  | cons r rest ih =>
    rw [List.foldl_cons, ih, sumVals_upd_succ]
    simp
    omega

/-- C5: for every non-empty record sequence, the counts returned by
`reviews_count_per_park` add up to the length of the input. -/
theorem count_per_park_total (rs : List Review) (_hne : rs ≠ []) :
    ((reviews_count_per_park rs).map Prod.snd).sum = rs.length := by
  have h := sumVals_count_foldl rs []
  simpa [reviews_count_per_park] using h

/-- Witness for C5 on the spec §8 scenario (five records). -/
theorem count_per_park_total_witness :
    ((reviews_count_per_park sampleReviews).map Prod.snd).sum = sampleReviews.length :=
  count_per_park_total sampleReviews (by decide)

/-- C8 (code bug): the year-average display at src/main.py:60 uses Python
truthiness (`if avg`), so a genuine average of `0.0` — reachable because
ratings are not range-checked — is displayed as "No data." even though the
function did not return the sentinel.  The claim says the message should be
shown only for the sentinel `None`. -/
theorem year_query_display_conflates_zero_with_none :
    avg_rating_by_park_year zeroRatingReviews "Park" "2019" = some 0 ∧
    avg_rating_by_park_year zeroRatingReviews "Park" "2019" ≠ none ∧
    year_query_no_data_shown (avg_rating_by_park_year zeroRatingReviews "Park" "2019") = true := by
  have h : yearMatchRatings zeroRatingReviews "Park" "2019" = [0] := by decide
  have h2 : avg_rating_by_park_year zeroRatingReviews "Park" "2019" = some 0 := by
    unfold avg_rating_by_park_year
    rw [h]
    norm_num
  refine ⟨h2, by simp [h2], ?_⟩
  rw [h2]
  simp [year_query_no_data_shown, pyTruthy]

/-- C7: the count map is keyed by raw park strings (two case-variant
spellings stay distinct keys, each counting only its exact spelling), its
key set is exactly the park strings occurring in the input, while
`get_reviews_by_park` matches case-insensitively and returns the records of
both spellings for either query string. -/
theorem raw_count_keys_vs_ci_filter (rs : List Review) (p q : String) (r1 r2 : Review)
    (_hpq : p ≠ q) (hlow : lowerStr p = lowerStr q)
    (h1 : r1 ∈ rs) (h2 : r2 ∈ rs) (hp1 : r1.park = p) (hp2 : r2.park = q) :
    (∀ k, k ∈ (reviews_count_per_park rs).map Prod.fst ↔ k ∈ rs.map Review.park) ∧
    p ∈ (reviews_count_per_park rs).map Prod.fst ∧
    q ∈ (reviews_count_per_park rs).map Prod.fst ∧
    lookupK (reviews_count_per_park rs) p = some (parkRecords rs p).length ∧
    lookupK (reviews_count_per_park rs) q = some (parkRecords rs q).length ∧
    r1 ∈ get_reviews_by_park rs p ∧ r2 ∈ get_reviews_by_park rs p ∧
    r1 ∈ get_reviews_by_park rs q ∧ r2 ∈ get_reviews_by_park rs q := by
  have hmem1 : r1 ∈ parkRecords rs p := by
    refine List.mem_filter.mpr ⟨h1, ?_⟩
    simp [hp1]
  have hmem2 : r2 ∈ parkRecords rs q := by
    refine List.mem_filter.mpr ⟨h2, ?_⟩
    simp [hp2]
  have hne1 : ¬(parkRecords rs p).isEmpty := by
    rw [List.isEmpty_iff]
    exact List.ne_nil_of_mem hmem1
  have hne2 : ¬(parkRecords rs q).isEmpty := by
    rw [List.isEmpty_iff]
    exact List.ne_nil_of_mem hmem2
  refine ⟨fun k => mem_keys_count rs k, ?_, ?_, ?_, ?_, ?_, ?_, ?_, ?_⟩
  · rw [mem_keys_count]
    exact hp1 ▸ List.mem_map_of_mem Review.park h1
  · rw [mem_keys_count]
    exact hp2 ▸ List.mem_map_of_mem Review.park h2
  · rw [lookupK_count, if_neg hne1]
  · rw [lookupK_count, if_neg hne2]
  · exact List.mem_filter.mpr ⟨h1, by simp [hp1]⟩
  · exact List.mem_filter.mpr ⟨h2, by simp [hp2, ← hlow]⟩
  · exact List.mem_filter.mpr ⟨h1, by simp [hp1, hlow]⟩
  · exact List.mem_filter.mpr ⟨h2, by simp [hp2]⟩

/-- Witness for C7: "Paris" and "paris" in `twoCaseReviews`. -/
theorem raw_count_keys_vs_ci_filter_witness :
    ("Disney" ∈ (reviews_count_per_park twoCaseReviews).map Prod.fst ↔
      "Disney" ∈ twoCaseReviews.map Review.park) ∧
    "Paris" ∈ (reviews_count_per_park twoCaseReviews).map Prod.fst ∧
    "paris" ∈ (reviews_count_per_park twoCaseReviews).map Prod.fst ∧
    lookupK (reviews_count_per_park twoCaseReviews) "Paris" =
      some (parkRecords twoCaseReviews "Paris").length ∧
    lookupK (reviews_count_per_park twoCaseReviews) "paris" =
      some (parkRecords twoCaseReviews "paris").length ∧
    (⟨1, 5, "2019-01", "Brazil", "Paris"⟩ : Review) ∈ get_reviews_by_park twoCaseReviews "Paris" ∧
    (⟨2, 3, "2019-02", "USA", "paris"⟩ : Review) ∈ get_reviews_by_park twoCaseReviews "Paris" ∧
    (⟨1, 5, "2019-01", "Brazil", "Paris"⟩ : Review) ∈ get_reviews_by_park twoCaseReviews "paris" ∧
    (⟨2, 3, "2019-02", "USA", "paris"⟩ : Review) ∈ get_reviews_by_park twoCaseReviews "paris" := by
  obtain ⟨hall, h⟩ := raw_count_keys_vs_ci_filter twoCaseReviews "Paris" "paris"
    ⟨1, 5, "2019-01", "Brazil", "Paris"⟩ ⟨2, 3, "2019-02", "USA", "paris"⟩
    (by decide) (by decide) (by decide) (by decide) rfl rfl
  exact ⟨hall "Disney", h⟩

theorem roundHalfEven_ge (q : ℚ) (c : ℤ) (h : (c : ℚ) ≤ q) : c ≤ roundHalfEven q := by
  unfold roundHalfEven
  have hf : c ≤ ⌊q⌋ := Int.le_floor.mpr h
  split_ifs <;> omega

theorem roundHalfEven_le (q : ℚ) (c : ℤ) (h : q ≤ (c : ℚ)) : roundHalfEven q ≤ c := by
  unfold roundHalfEven
  have hf : ⌊q⌋ ≤ c := by
    exact_mod_cast (Int.floor_le_floor h).trans_eq (Int.floor_intCast c)
  have hlt : (1 : ℚ) / 2 ≤ q - ⌊q⌋ → ⌊q⌋ < c := by
    intro hh
    refine lt_of_le_of_ne hf (fun heq => ?_)
    rw [heq] at hh
    linarith
  split_ifs with h1 h2 h3
  · exact hf
  · have := hlt (le_of_lt h2)
    omega
  · exact hf
  · have := hlt (not_lt.mp h1)
    omega

theorem round2_bounds (q : ℚ) (a b : ℤ) (ha : (a : ℚ) ≤ q) (hb : q ≤ (b : ℚ)) :
    (a : ℚ) ≤ round2 q ∧ round2 q ≤ (b : ℚ) := by
  unfold round2
  constructor
  · have h1 : (100 * a : ℤ) ≤ roundHalfEven (q * 100) := by
      refine roundHalfEven_ge _ _ ?_
      push_cast
      linarith
    rw [le_div_iff₀ (by norm_num : (0 : ℚ) < 100)]
    calc (a : ℚ) * 100 = ((100 * a : ℤ) : ℚ) := by push_cast; ring
      _ ≤ _ := by exact_mod_cast h1
  · have h1 : roundHalfEven (q * 100) ≤ (100 * b : ℤ) := by
      refine roundHalfEven_le _ _ ?_
      push_cast
      linarith
    rw [div_le_iff₀ (by norm_num : (0 : ℚ) < 100)]
    calc ((roundHalfEven (q * 100) : ℤ) : ℚ) ≤ ((100 * b : ℤ) : ℚ) := by exact_mod_cast h1
      _ = (b : ℚ) * 100 := by push_cast; ring

theorem round2_bounds15 (q : ℚ) (h1 : 1 ≤ q) (h5 : q ≤ 5) :
    0 ≤ round2 q ∧ round2 q ≤ 5 := by
  have hb := round2_bounds q 1 5 (by exact_mod_cast h1) (by exact_mod_cast h5)
  constructor
  · have h := hb.1
    push_cast at h
    linarith
  · have h := hb.2
    push_cast at h
    linarith

/-- C2: with all ratings in 1..5, every `park_summary` entry satisfies
`positive ≤ reviews`, `0 ≤ avg ≤ 5` and `countries ≤ reviews`; and the keys
of the summary are exactly the park strings that occur in the input, so a
park with zero records never appears. -/
theorem park_summary_invariants (rs : List Review)
    (hdom : ∀ r ∈ rs, 1 ≤ r.rating ∧ r.rating ≤ 5) :
    (∀ k, k ∈ (park_summary rs).map Prod.fst ↔ k ∈ rs.map Review.park) ∧
    (∀ k e, lookupK (park_summary rs) k = some e →
      e.positive ≤ e.reviews ∧ 0 ≤ e.avg ∧ e.avg ≤ 5 ∧ e.countries ≤ e.reviews) := by
  refine ⟨fun k => mem_keys_summary rs k, fun k e he => ?_⟩
  rw [lookupK_park_summary] at he
  by_cases hemp : (parkRecords rs k).isEmpty
  · rw [if_pos hemp] at he
    cases he
  · rw [if_neg hemp] at he
    obtain rfl := (Option.some.inj he).symm
    have hne : parkRecords rs k ≠ [] := by
      rwa [List.isEmpty_iff] at hemp
    have hlen : 0 < (parkRecords rs k).length := List.length_pos.mpr hne
    have hlenQ : 0 < ((parkRecords rs k).length : ℚ) := by exact_mod_cast hlen
    have hrange : ∀ x ∈ (parkRecords rs k).map Review.rating, 1 ≤ x ∧ x ≤ 5 := by
      intro x hx
      obtain ⟨r, hr, rfl⟩ := List.mem_map.mp hx
      exact hdom r (List.mem_filter.mp hr).1
    have hsum_low : ((parkRecords rs k).length : ℤ) ≤
        ((parkRecords rs k).map Review.rating).sum := by
      have h := List.card_nsmul_le_sum ((parkRecords rs k).map Review.rating) (1 : ℤ)
        (fun x hx => (hrange x hx).1)
      simpa [nsmul_eq_mul] using h
    have hsum_high : ((parkRecords rs k).map Review.rating).sum ≤
        ((parkRecords rs k).length : ℤ) * 5 := by
      have h := List.sum_le_card_nsmul ((parkRecords rs k).map Review.rating) (5 : ℤ)
        (fun x hx => (hrange x hx).2)
      simpa [nsmul_eq_mul] using h
    have hmean_low : (1 : ℚ) ≤ (((parkRecords rs k).map Review.rating).sum : ℚ) /
        ((parkRecords rs k).length : ℚ) := by
      rw [le_div_iff₀ hlenQ, one_mul]
      exact_mod_cast hsum_low
    have hmean_high : (((parkRecords rs k).map Review.rating).sum : ℚ) /
        ((parkRecords rs k).length : ℚ) ≤ 5 := by
      rw [div_le_iff₀ hlenQ]
      calc (((parkRecords rs k).map Review.rating).sum : ℚ)
          ≤ (((parkRecords rs k).length : ℤ) * 5 : ℤ) := by exact_mod_cast hsum_high
        _ = 5 * ((parkRecords rs k).length : ℚ) := by push_cast; ring
    have hb := round2_bounds15 _ hmean_low hmean_high
    refine ⟨List.countP_le_length _, hb.1, hb.2, ?_⟩
    simpa using card_foldl_insert_le (parkRecords rs k) ∅

/-- Witness for C2 on the spec §8 scenario: the "Disneyland Paris" entry
(3 reviews, 2 positive, average 4.0, 3 countries) satisfies the bounds. -/
theorem park_summary_invariants_witness :
    lookupK (park_summary sampleReviews) "Disneyland Paris" =
      some ⟨3, 2, round2 ((12 : ℚ) / 3), 3⟩ ∧
    2 ≤ 3 ∧ (0 : ℚ) ≤ round2 ((12 : ℚ) / 3) ∧ round2 ((12 : ℚ) / 3) ≤ 5 ∧ 3 ≤ 3 := by
  have he : lookupK (park_summary sampleReviews) "Disneyland Paris" =
      some ⟨3, 2, round2 ((12 : ℚ) / 3), 3⟩ := by
    rw [lookupK_park_summary]
    have hrec : parkRecords sampleReviews "Disneyland Paris" =
        [⟨1, 5, "2019-01", "Brazil", "Disneyland Paris"⟩,
         ⟨2, 4, "2019-01", "USA", "Disneyland Paris"⟩,
         ⟨3, 3, "2019-02", "France", "Disneyland Paris"⟩] := by decide
    rw [hrec]
    norm_num
    decide
  have hb := (park_summary_invariants sampleReviews (by decide)).2 "Disneyland Paris" _ he
  exact ⟨he, hb.1, hb.2.1, hb.2.2.1, hb.2.2.2⟩

/-- C10: the single-pass `park_summary` agrees with the independent
per-operation computations: same keys (in the same order) as
`reviews_count_per_park`, and pointwise its `reviews` field is the count and
its `avg` field is the `avg_rating_per_park` value rounded to 2 decimals. -/
theorem park_summary_refines_pointwise (rs : List Review) :
    (park_summary rs).map Prod.fst = (reviews_count_per_park rs).map Prod.fst ∧
    ∀ k,
      (lookupK (park_summary rs) k).map ParkStats.reviews =
        lookupK (reviews_count_per_park rs) k ∧
      (lookupK (park_summary rs) k).map ParkStats.avg =
        (lookupK (avg_rating_per_park rs) k).map round2 := by
  refine ⟨by rw [keys_summary_eq, keys_count_eq], fun k => ?_⟩
  rw [lookupK_park_summary, lookupK_count, lookupK_avg_per_park]
  by_cases h : (parkRecords rs k).isEmpty <;> simp [h]

/-- The month name a record contributes to, when its `year_month` splits on
`'-'` into exactly two parts whose second part is a known month code;
`none` both for an unknown code (silently skipped by the source) and for a
split of a different shape (which makes the source raise). -/
def monthNameOf (r : Review) : Option String :=
  match pySplitDash r.year_month.data with
  | [_, month] => lookupK monthPairs month
  | _ => none

/-- The bucket key of a record inside `avg_monthly_rating`: its month name,
provided it matches the park. -/
def monthKeyOf (park : String) (r : Review) : Option String :=
  if lowerStr r.park = lowerStr park then monthNameOf r else none

theorem monthlyStatsAux_eq_fold (park : String) (rs : List Review)
    (h : ∀ r ∈ rs, lowerStr r.park = lowerStr park →
      (pySplitDash r.year_month.data).length = 2) (m : List (String × List ℤ)) :
    monthlyStatsAux park rs m =
      some (rs.foldl (keyStep (monthKeyOf park) (fun r v => v ++ [r.rating]) []) m) := by
  induction rs generalizing m with
  | nil => rfl
  | cons r rest ih =>
    have htail : ∀ r' ∈ rest, lowerStr r'.park = lowerStr park →
        (pySplitDash r'.year_month.data).length = 2 :=
      fun r' hr' => h r' (List.mem_cons_of_mem _ hr')
    by_cases hp : lowerStr r.park = lowerStr park
    · obtain ⟨a, b, hab⟩ := List.length_eq_two.mp (h r (List.mem_cons_self r rest) hp)
      have hkey : monthKeyOf park r = lookupK monthPairs b := by
        simp [monthKeyOf, monthNameOf, hp, hab]
      cases hlook : lookupK monthPairs b with
      | none =>
        have l1 : monthlyStatsAux park (r :: rest) m = monthlyStatsAux park rest m := by
          simp [monthlyStatsAux, hp, hab, hlook]
        have l2 : keyStep (monthKeyOf park) (fun r v => v ++ [r.rating]) [] m r = m := by
          simp [keyStep, hkey, hlook]
        rw [List.foldl_cons, l2, l1]
        exact ih htail m
      | some name =>
        have l1 : monthlyStatsAux park (r :: rest) m =
            monthlyStatsAux park rest (upd m name (· ++ [r.rating]) []) := by
          simp [monthlyStatsAux, hp, hab, hlook]
        have l2 : keyStep (monthKeyOf park) (fun r v => v ++ [r.rating]) [] m r =
            upd m name (· ++ [r.rating]) [] := by
          simp [keyStep, hkey, hlook]
        rw [List.foldl_cons, l2, l1]
        exact ih htail _
    · have l1 : monthlyStatsAux park (r :: rest) m = monthlyStatsAux park rest m := by
        simp [monthlyStatsAux, hp]
      have l2 : keyStep (monthKeyOf park) (fun r v => v ++ [r.rating]) [] m r = m := by
        simp [keyStep, monthKeyOf, hp]
      rw [List.foldl_cons, l2, l1]
      exact ih htail m

theorem avg_monthly_rating_eq_of_wf (rs : List Review) (park : String)
    (h : ∀ r ∈ rs, lowerStr r.park = lowerStr park →
      (pySplitDash r.year_month.data).length = 2) :
    avg_monthly_rating rs park =
      some (monthNames.map (fun name =>
        (name,
          if (hits (monthKeyOf park) name rs).isEmpty then 0
          else ((((hits (monthKeyOf park) name rs).map Review.rating).sum : ℚ) /
                ((hits (monthKeyOf park) name rs).length : ℚ))))) := by
  unfold avg_monthly_rating
  rw [monthlyStatsAux_eq_fold park rs h []]
  simp only [Option.map_some']
  congr 1
  refine List.map_congr_left (fun name _ => ?_)
  rw [lookupK_foldl]
  by_cases hemp : (hits (monthKeyOf park) name rs).isEmpty
  · simp [hemp]
  · rw [if_neg hemp, if_neg hemp]
    have hv : (hits (monthKeyOf park) name rs).foldl (fun v r => v ++ [r.rating])
        ((lookupK ([] : List (String × List ℤ)) name).getD []) =
        (hits (monthKeyOf park) name rs).map Review.rating := by
      rw [lookupK_nil]
      exact foldl_append_ratings _ _
    rw [hv]
    have hne : (hits (monthKeyOf park) name rs).map Review.rating ≠ [] := by
      rw [List.isEmpty_iff] at hemp
      simpa using hemp
    have hne' : ¬((hits (monthKeyOf park) name rs).map Review.rating).isEmpty := by
      rw [List.isEmpty_iff]
      exact hne
    simp [hne']

/-- C3 counterexample: on a park-matching record whose period contains no
dash, `avg_monthly_rating` raises `ValueError` (modelled as `none`) instead
of returning a 12-entry result, so the claim is false as universally
stated. -/
theorem avg_monthly_rating_raises_on_dashless_period :
    avg_monthly_rating [⟨1, 5, "2019", "L", "P"⟩] "P" = none := by decide

/-- C3 (amended): provided every park-matching record's period splits on
`'-'` into exactly two parts (otherwise the function raises),
`avg_monthly_rating` returns exactly 12 entries keyed Jan..Dec in fixed
calendar order, where a month with no matching records gets `0` and a month
with matching records gets the mean of their ratings. -/
theorem avg_monthly_rating_twelve_months (rs : List Review) (park : String)
    (h : ∀ r ∈ rs, lowerStr r.park = lowerStr park →
      (pySplitDash r.year_month.data).length = 2) :
    ∃ out, avg_monthly_rating rs park = some out ∧
      out.map Prod.fst =
        ["Jan", "Feb", "Mar", "Apr", "May", "Jun",
         "Jul", "Aug", "Sep", "Oct", "Nov", "Dec"] ∧
      out.length = 12 ∧
      out = monthNames.map (fun name =>
        (name,
          if (hits (monthKeyOf park) name rs).isEmpty then 0
          else ((((hits (monthKeyOf park) name rs).map Review.rating).sum : ℚ) /
                ((hits (monthKeyOf park) name rs).length : ℚ)))) := by
  refine ⟨_, avg_monthly_rating_eq_of_wf rs park h, ?_, ?_, rfl⟩
  · simp [List.map_map]
    rfl
  · simp [monthNames, monthPairs]

/-- Witness for (amended) C3 on the spec §8 scenario. -/
theorem avg_monthly_rating_twelve_months_witness :
    avg_monthly_rating sampleReviews "Disneyland Paris" =
      some (monthNames.map (fun name =>
        (name,
          if (hits (monthKeyOf "Disneyland Paris") name sampleReviews).isEmpty then 0
          else ((((hits (monthKeyOf "Disneyland Paris") name sampleReviews).map
                   Review.rating).sum : ℚ) /
                ((hits (monthKeyOf "Disneyland Paris") name sampleReviews).length : ℚ))))) ∧
    (avg_monthly_rating sampleReviews "Disneyland Paris").map (fun out => out.map Prod.fst) =
      some ["Jan", "Feb", "Mar", "Apr", "May", "Jun",
            "Jul", "Aug", "Sep", "Oct", "Nov", "Dec"] ∧
    (avg_monthly_rating sampleReviews "Disneyland Paris").map List.length = some 12 := by
  obtain ⟨out, h1, h2, h3, h4⟩ :=
    avg_monthly_rating_twelve_months sampleReviews "Disneyland Paris" (by decide)
  refine ⟨h4 ▸ h1, ?_, ?_⟩
  · rw [h1]
    simp [h2]
  · rw [h1]
    simp [h3]

/-- C4 counterexample: a park-matching record whose period splits into three
parts ("2019-01-05" does not decompose into year plus a known two-digit
month code) makes `avg_monthly_rating` raise `ValueError` (modelled as
`none`) instead of silently skipping the record. -/
theorem avg_monthly_rating_raises_on_three_part_period :
    avg_monthly_rating [⟨1, 4, "2019-01-05", "X", "P"⟩] "P" = none := by decide

/-- C4 (amended): provided every park-matching record's period splits on
`'-'` into exactly two parts, the function does not raise, and a
park-matching record whose month code is unknown is silently excluded:
deleting all such records from the input leaves the result unchanged.
(A record whose period does not split into exactly two parts instead makes
the function raise, as the counterexample shows.) -/
theorem avg_monthly_rating_skips_unknown_codes (rs : List Review) (park : String)
    (h : ∀ r ∈ rs, lowerStr r.park = lowerStr park →
      (pySplitDash r.year_month.data).length = 2) :
    avg_monthly_rating rs park =
      avg_monthly_rating (rs.filter (fun r =>
        !(decide (lowerStr r.park = lowerStr park) && decide (monthNameOf r = none)))) park ∧
    ∃ out, avg_monthly_rating rs park = some out ∧ out.length = 12 := by
  have hsub : ∀ r ∈ rs.filter (fun r =>
      !(decide (lowerStr r.park = lowerStr park) && decide (monthNameOf r = none))),
      lowerStr r.park = lowerStr park → (pySplitDash r.year_month.data).length = 2 :=
    fun r hr => h r (List.mem_filter.mp hr).1
  constructor
  · rw [avg_monthly_rating_eq_of_wf rs park h,
      avg_monthly_rating_eq_of_wf _ park hsub]
    congr 1
    refine List.map_congr_left (fun name hname => ?_)
    have hfix : hits (monthKeyOf park) name (rs.filter (fun r =>
        !(decide (lowerStr r.park = lowerStr park) && decide (monthNameOf r = none)))) =
        hits (monthKeyOf park) name rs := by
      unfold hits
      rw [List.filter_filter]
      refine List.filter_congr (fun r _ => ?_)
      by_cases hk : monthKeyOf park r = some name
      · have hp : lowerStr r.park = lowerStr park := by
          by_contra hp
          simp [monthKeyOf, hp] at hk
        have hmn : monthNameOf r = some name := by
          simpa [monthKeyOf, hp] using hk
        simp [hk, hp, hmn]
      · simp [hk]
    rw [hfix]
  · refine ⟨_, avg_monthly_rating_eq_of_wf rs park h, ?_⟩
    simp [monthNames, monthPairs]

/-- Witness for (amended) C4: a park-matching record with unknown month code
"13" is dropped without affecting the result. -/
theorem avg_monthly_rating_skips_unknown_codes_witness :
    avg_monthly_rating
        [⟨1, 5, "2019-13", "L", "P"⟩, ⟨2, 3, "2019-01", "M", "P"⟩] "P" =
      avg_monthly_rating
        (([⟨1, 5, "2019-13", "L", "P"⟩, ⟨2, 3, "2019-01", "M", "P"⟩] :
            List Review).filter (fun r =>
          !(decide (lowerStr r.park = lowerStr "P") && decide (monthNameOf r = none)))) "P" ∧
    (avg_monthly_rating
        [⟨1, 5, "2019-13", "L", "P"⟩, ⟨2, 3, "2019-01", "M", "P"⟩] "P").map List.length =
      some 12 := by
  obtain ⟨heq, out, hsome, hlen⟩ := avg_monthly_rating_skips_unknown_codes
    [⟨1, 5, "2019-13", "L", "P"⟩, ⟨2, 3, "2019-01", "M", "P"⟩] "P" (by decide)
  refine ⟨heq, ?_⟩
  rw [hsome]
  simp [hlen]

theorem filter_orderedInsert {α : Type} (r : α → α → Prop) [DecidableRel r]
    (p : α → Bool) (hpr : ∀ b c, p b → p c → r b c) (x : α) (l : List α) :
    (l.orderedInsert r x).filter p = if p x then x :: l.filter p else l.filter p := by
  induction l with
  | nil =>
    rw [List.orderedInsert, List.filter_cons]
  | cons y ys ih =>
    rw [List.orderedInsert]
    by_cases hr : r x y
    · rw [if_pos hr, List.filter_cons]
    · rw [if_neg hr]
      by_cases hpx : p x
      · have hpy : ¬p y = true := fun hpy => hr (hpr x y hpx hpy)
        simp only [List.filter_cons, ih, hpx, if_pos, Bool.not_eq_true] at *
        simp [hpy, hpx]
      · simp only [List.filter_cons, ih]
        simp [hpx]

/-- Stability of insertion sort: when all elements accepted by `p` are
mutually related by `r` (e.g. they share the same sort key), sorting does not
change their relative order. -/
theorem filter_insertionSort {α : Type} (r : α → α → Prop) [DecidableRel r]
    (p : α → Bool) (hpr : ∀ b c, p b → p c → r b c) (l : List α) :
    (List.insertionSort r l).filter p = l.filter p := by
  induction l with
  | nil => rfl
  | cons x xs ih =>
    rw [List.insertionSort, filter_orderedInsert r p hpr, ih, List.filter_cons]

/-- C6 (amended with `0 ≤ topN`): for a non-negative `topN` the output of
`top_locations_for_park` has at most `topN` entries, is sorted by descending
average, and among entries with exactly equal averages preserves the order
of the pre-sort per-location average dict `locAvgs` (whose keys are in
first-encounter order of the park-filtered input); `topN` defaults to 10.
For negative `topN`, Python slicing `[:topN]` drops elements from the end
instead, and the length bound fails (see the counterexample). -/
theorem top_locations_sorted_truncated (rs : List Review) (park : String) (top : ℤ)
    (htop : 0 ≤ top) :
    ((top_locations_for_park rs park top).length : ℤ) ≤ top ∧
    List.Sorted descRel (top_locations_for_park rs park top) ∧
    (∀ v : ℚ, (top_locations_for_park rs park top).filter (fun lv => decide (lv.2 = v)) <+:
      (locAvgs rs park).filter (fun lv => decide (lv.2 = v))) ∧
    top_locations_for_park rs park = top_locations_for_park rs park 10 := by
  have hslice : top_locations_for_park rs park top =
      (List.insertionSort descRel (locAvgs rs park)).take top.toNat := by
    unfold top_locations_for_park pySlice
    rw [if_pos htop]
  refine ⟨?_, ?_, ?_, rfl⟩
  · rw [hslice]
    have hlen : ((List.insertionSort descRel (locAvgs rs park)).take top.toNat).length ≤
        top.toNat := by
      rw [List.length_take]
      exact Nat.min_le_left _ _
    calc (((List.insertionSort descRel (locAvgs rs park)).take top.toNat).length : ℤ)
        ≤ (top.toNat : ℤ) := by exact_mod_cast hlen
      _ = top := Int.toNat_of_nonneg htop
  · rw [hslice]
    exact (List.sorted_insertionSort descRel _).sublist (List.take_sublist _ _)
  · intro v
    rw [hslice]
    have h1 : ((List.insertionSort descRel (locAvgs rs park)).take top.toNat).filter
        (fun lv => decide (lv.2 = v)) <+:
        (List.insertionSort descRel (locAvgs rs park)).filter (fun lv => decide (lv.2 = v)) :=
      (List.take_prefix _ _).filter _
    have h2 : (List.insertionSort descRel (locAvgs rs park)).filter
        (fun lv => decide (lv.2 = v)) = (locAvgs rs park).filter (fun lv => decide (lv.2 = v)) :=
      filter_insertionSort descRel _ (fun b c hb hc => by
        simp only [decide_eq_true_eq] at hb hc
        unfold descRel
        rw [hb, hc]) _
    exact h2 ▸ h1

/-- Two locations of one park, averages 5 and 4. -/
def twoLocReviews : List Review := [⟨1, 5, "2019-01", "A", "P"⟩, ⟨2, 4, "2019-01", "B", "P"⟩]

/-- C6 counterexample: with `topN = -1` (a caller-suppliable Python int),
slicing `[:-1]` keeps one of the two location entries, so the output length
is not at most `topN`; the claim fails as stated for every `topN`. -/
theorem top_locations_neg_top_violates_bound :
    ¬(((top_locations_for_park twoLocReviews "P" (-1)).length : ℤ) ≤ -1) := by
  have hsortlen : (List.insertionSort descRel (locAvgs twoLocReviews "P")).length = 2 := by
    rw [(List.perm_insertionSort descRel _).length_eq]
    rfl
  have hlen : (top_locations_for_park twoLocReviews "P" (-1)).length = 1 := by
    unfold top_locations_for_park pySlice
    rw [if_neg (by norm_num)]
    rw [List.length_take, hsortlen]
    rfl
  rw [hlen]
  decide

/-- Witness for (amended) C6 at `topN = 0`. -/
theorem top_locations_sorted_truncated_witness :
    ((top_locations_for_park twoLocReviews "P" 0).length : ℤ) ≤ 0 ∧
    List.Sorted descRel (top_locations_for_park twoLocReviews "P" 0) ∧
    (top_locations_for_park twoLocReviews "P" 0).filter (fun lv => decide (lv.2 = (5 : ℚ))) <+:
      (locAvgs twoLocReviews "P").filter (fun lv => decide (lv.2 = (5 : ℚ))) := by
  obtain ⟨h1, h2, h3, _⟩ := top_locations_sorted_truncated twoLocReviews "P" 0 (by decide)
  exact ⟨h1, h2, h3 5⟩

/-!
## CSV export (src/exporter.py) and the spec's round-trip property

The `csv` library writes one logical row (a list of cells) per line, taking
care of quoting so that `csv.reader` recovers exactly the written cells;
rows are therefore modelled at the cell level as `List String`.  Each cell
is the `str(...)` rendering of the Python value: decimal digits for the
non-negative integer fields, an opaque float formatting for `avg`.
-/

/-- The decimal digit character for `n < 10`. -/
def digitChar (n : ℕ) : Char := Char.ofNat (48 + n)

/-- The decimal digit string of a natural number, most significant first
(the rendering `str(...)` produces for a non-negative int). -/
def natDigits (n : ℕ) : List Char :=
  if _h : n < 10 then [digitChar n]
  else natDigits (n / 10) ++ [digitChar (n % 10)]
decreasing_by exact Nat.div_lt_self (by omega) (by omega)

/-- Embedding of Python `str(...)` on a non-negative int. -/
def natStr (n : ℕ) : String := ⟨natDigits n⟩

/-- Numeric value of a decimal digit character. -/
def digitVal (c : Char) : ℕ := c.toNat - 48

/-- Embedding of Python `int(...)` on a string: defined exactly on non-empty
all-digit strings. -/
def parseNatS (s : String) : Option ℕ :=
  if s.data ≠ [] ∧ s.data.all Char.isDigit then
    some (s.data.foldl (fun acc c => acc * 10 + digitVal c) 0)
  else none

/-- Embedding of Python `str(...)` on the float `avg` field; the round-trip
claim compares this field modulo formatting, so only the function itself
matters, not its output shape. -/
def ratStr (q : ℚ) : String := toString q

/-- The fixed header row of `CsvExporter.export` (src/exporter.py:51). -/
def csvHeader : List String := ["Park", "reviews", "positive", "avg", "countries"]

/-- `CsvExporter.export` (src/exporter.py:44): the header row, then one row
per park in map-iteration order, `[park] + list(data.values())` with the
value order `reviews, positive, avg, countries` fixed by the accumulator's
insertion order in `park_summary`. -/
def csvExportRows (summary : List (String × ParkStats)) : List (List String) :=
  csvHeader :: summary.map (fun pe =>
    [pe.1, natStr pe.2.reviews, natStr pe.2.positive, ratStr pe.2.avg, natStr pe.2.countries])

/-- Modelled from the spec: re-parsing one data row of the tabular export.
The repository ships no parser for summary rows (src/ only exports them), so
the parser follows the spec's round-trip wording: read back
`(park, reviews, positive, avg, countries)` from the five cells, parsing the
integer fields as decimal numbers and keeping the float field as its
formatted text. -/
def parseSummaryRow (row : List String) : Option (String × ℕ × ℕ × String × ℕ) :=
  match row with
  | [p, rv, pos, avg, c] =>
    match parseNatS rv, parseNatS pos, parseNatS c with
    | some a, some b, some d => some (p, a, b, avg, d)
    | _, _, _ => none
  | _ => none

theorem digitVal_digitChar (n : ℕ) (h : n < 10) : digitVal (digitChar n) = n := by
  interval_cases n <;> decide

theorem isDigit_digitChar (n : ℕ) (h : n < 10) : (digitChar n).isDigit = true := by
  interval_cases n <;> decide

theorem natDigits_ne_nil (n : ℕ) : natDigits n ≠ [] := by
  rw [natDigits]
  split
  · simp
  · simp

theorem natDigits_all_digits (n : ℕ) : (natDigits n).all Char.isDigit = true := by
  induction n using Nat.strong_induction_on with
  | _ n ih =>
    rw [natDigits]
    split <;> rename_i h
    · simp [isDigit_digitChar n h]
    · rw [List.all_append]
      have h1 := ih (n / 10) (Nat.div_lt_self (by omega) (by omega))
      have h2 := isDigit_digitChar (n % 10) (Nat.mod_lt n (by omega))
      simp [h1, h2]

theorem foldl_natDigits (n : ℕ) :
    (natDigits n).foldl (fun acc c => acc * 10 + digitVal c) 0 = n := by
  induction n using Nat.strong_induction_on with
  | _ n ih =>
    rw [natDigits]
    split <;> rename_i h
    · simp [digitVal_digitChar n h]
    · rw [List.foldl_append]
      have h1 := ih (n / 10) (Nat.div_lt_self (by omega) (by omega))
      rw [h1]
      simp only [List.foldl_cons, List.foldl_nil]
      rw [digitVal_digitChar (n % 10) (Nat.mod_lt n (by omega))]
      omega

/-- `int(str(n)) == n` for the embedded decimal print/parse pair. -/
theorem parseNatS_natStr (n : ℕ) : parseNatS (natStr n) = some n := by
  unfold parseNatS natStr
  rw [if_pos ⟨natDigits_ne_nil n, natDigits_all_digits n⟩]
  rw [foldl_natDigits]

/-- C9: exporting a `park_summary` with the tabular exporter yields the
fixed header row, then one row per park in map-iteration order; re-parsing
each data row recovers exactly the in-memory
`(park, reviews, positive, avg, countries)` tuple, the float `avg` field
compared modulo its string formatting. -/
theorem csv_export_round_trip (rs : List Review) :
    (csvExportRows (park_summary rs)).head? = some csvHeader ∧
    (csvExportRows (park_summary rs)).tail.map parseSummaryRow =
      (park_summary rs).map (fun pe =>
        some (pe.1, pe.2.reviews, pe.2.positive, ratStr pe.2.avg, pe.2.countries)) := by
  refine ⟨rfl, ?_⟩
  rw [csvExportRows]
  simp only [List.tail_cons, List.map_map]
  refine List.map_congr_left (fun pe _ => ?_)
  simp [Function.comp, parseSummaryRow, parseNatS_natStr]

end Disney
